import Mathlib

/-!
Shallow embedding of the VLA calibrator scraper (`src/scrapper.py`) and the
query tool (`src/query.py`).  Strings are modelled as `List Char` (via
`String.data`); Python integer positions as `Nat`/`Int` (Python's `str.find`
returns `-1` on failure, so located offsets are `Int`); Python regular
expressions are modelled by a small backtracking engine (`RE`, `matchRE`)
whose semantics is the standard leftmost greedy backtracking that Python's
`re` implements for the pattern fragment in use; operations that can raise
in Python are modelled with `Option`, with `none` standing for a raised
exception.  Character classes (`\s`, `\d`, `\w`) are modelled over the ASCII
range, which covers the scraped tables.
-/

namespace VLA

/-- Characters treated as whitespace by the Python operations used in the
source (`str.split`, `str.strip`, the regex class `\s`), ASCII range. -/
def isPyWs (c : Char) : Bool :=
  c == ' ' || c == '\t' || c == '\n' || c == '\r' || c == '\x0b' || c == '\x0c'

/-- Remove trailing whitespace, as the right half of Python `str.strip`. -/
def rtrimWs (cs : List Char) : List Char := (cs.reverse.dropWhile isPyWs).reverse

/-- Remove leading whitespace, as the left half of Python `str.strip`. -/
def ltrimWs (cs : List Char) : List Char := cs.dropWhile isPyWs

/-- Python `str.strip()` on a character list. -/
def pyStripL (cs : List Char) : List Char := ltrimWs (rtrimWs cs)

/-- Python `str.strip()` on a `String`. -/
def stripStr (s : String) : String := ⟨pyStripL s.data⟩

/-- Python `str.split()` (split on whitespace runs, no empty tokens),
written with an accumulator for the token currently being read (held
reversed), so the definition is structurally recursive. -/
def splitWsGo : List Char → List Char → List (List Char)
  | [], acc => if acc.isEmpty then [] else [acc.reverse]
  | c :: rest, acc =>
    if isPyWs c then
      if acc.isEmpty then splitWsGo rest [] else acc.reverse :: splitWsGo rest []
    else splitWsGo rest (c :: acc)

/-- Python `str.split()` with no arguments. -/
def splitWs (cs : List Char) : List (List Char) := splitWsGo cs []

/-- Numeric value of a list of decimal digit characters. -/
def natOfDigits (ds : List Char) : Nat :=
  ds.foldl (fun a c => a * 10 + (c.toNat - 48)) 0

/-- Decomposition of a token matching the regex `^\d*\.?\d+$` from
`parse_band_line_robust` into integer digits and fractional digits;
`none` when the token does not match the regex. -/
def decVal? (t : List Char) : Option (List Char × List Char) :=
  let ds1 := t.takeWhile Char.isDigit
  match t.drop ds1.length with
  | [] => if ds1.isEmpty then none else some (ds1, [])
  | '.' :: ds2 => if !ds2.isEmpty && ds2.all Char.isDigit then some (ds1, ds2) else none
  | _ => none

/-- Test for the regex `^\d*\.?\d+$` used on band-line tokens. -/
def isNumTok (t : List Char) : Bool := (decVal? t).isSome

/-- Exact comparison `value > 0.05` for a decomposed decimal token,
modelling `float(part) > 0.05` (the comparison is performed on the exact
rational value of the decimal literal). -/
def decGt005 (v : List Char × List Char) : Bool :=
  natOfDigits v.1 > 0 || natOfDigits v.2 * 20 > 10 ^ v.2.length

/-- Worker for Python `str.find(sub, start)`: absolute index of the first
occurrence of `sub` at or after the running index. -/
def pyFindGo (sub : List Char) : List Char → Nat → Option Nat
  | [], i => if sub.isEmpty then some i else none
  | c :: t, i => if sub.isPrefixOf (c :: t) then some i else pyFindGo sub t (i + 1)

/-- Python `str.find(sub, start)`: first index `≥ start` at which `sub`
occurs, `-1` when there is none. -/
def pyFindFrom (cs sub : List Char) (start : Nat) : Int :=
  if start > cs.length then -1
  else
    match pyFindGo sub (cs.drop start) start with
    | some i => (i : Int)
    | none => -1

/-- Python `sub in s` substring containment. -/
def pyContains (cs sub : List Char) : Bool := pyFindFrom cs sub 0 ≥ 0

/-- The characters of the literal `visplot`. -/
def visplotChars : List Char := ['v', 'i', 's', 'p', 'l', 'o', 't']

/-- Model of `re.sub(r'\s+visplot\s*$', '', line).strip()` from
`parse_band_line_robust` (line 40 of `src/scrapper.py`): drop a trailing
`visplot` token (which must be preceded by whitespace) together with the
surrounding trailing whitespace, then strip. -/
def bandPre (cs : List Char) : List Char :=
  let t := rtrimWs cs
  let pre := t.take (t.length - 7)
  let wsBefore : Bool :=
    match pre.getLast? with
    | some c => isPyWs c
    | none => false
  if visplotChars.isSuffixOf t && wsBefore then pyStripL (rtrimWs pre) else pyStripL t

/-- The whitespace tokens of the cleaned band line (`line_clean.split()`). -/
def bandParts (line : String) : List (List Char) := splitWs (bandPre line.data)

/-- One parsed band line, with the nine fields written by
`parse_band_line_robust`; unrecovered UV fields are the empty string, as in
the source. -/
structure BandRecord where
  BAND : String
  BAND_CODE : String
  A_CODE : String
  B_CODE : String
  C_CODE : String
  D_CODE : String
  FLUX_JY : String
  UVMIN_KLAMBDA : String
  UVMAX_KLAMBDA : String
deriving DecidableEq, Repr

/-- Flux-token search of `parse_band_line_robust` (lines 57-61): first index
whose token matches the numeric regex and has value `> 0.05`.  The outer
`Option` models a raised exception (none ever occurs: the value is computed
only after the regex matched), the inner `Option` is Python's `-1` result. -/
def findFluxGo : Nat → List (List Char) → Option (Option Nat)
  | _, [] => some none
  | i, t :: ts =>
    if isNumTok t then
      match decVal? t with
      | none => none
      | some v => if decGt005 v then some (some i) else findFluxGo (i + 1) ts
    else findFluxGo (i + 1) ts

/-- Flux-token search over the token list. -/
def findFluxSafe (parts : List (List Char)) : Option (Option Nat) := findFluxGo 0 parts

/-- Column threshold `uvmin_col_pos = 35` from the source. -/
def uvminColPos : Int := 35

/-- Column threshold `uvmax_col_pos = 46` from the source. -/
def uvmaxColPos : Int := 46

/-- Offset from which UV candidates are searched in the original line:
`original_line.find(flux) + len(flux)` (line 95 of the source). -/
def searchStartOf (orig flux : List Char) : Nat :=
  (pyFindFrom orig flux 0 + (flux.length : Int)).toNat

/-- UV candidate collection of `parse_band_line_robust` (lines 91-98): every
token after the flux index matching the numeric regex, paired with the
offset at which `str.find` locates it in the original line searching from
just after the first occurrence of the flux string. -/
def mkCands (orig : List Char) (parts : List (List Char)) (fi : Nat) (flux : List Char) :
    List (List Char × Int) :=
  ((parts.drop (fi + 1)).filter isNumTok).map
    fun t => (t, pyFindFrom orig t (searchStartOf orig flux))

/-- Classification loop of `parse_band_line_robust` (lines 102-112): each
candidate is routed by its located offset, UV-max checked first; a slot
accepts only its first candidate (Python's `if not uvmax:` test on the
empty string). -/
def classifyUV : List (List Char × Int) → List Char × List Char → List Char × List Char
  | [], acc => acc
  | (v, p) :: rest, (mn, mx) =>
    if p ≥ uvmaxColPos then classifyUV rest (mn, if mx.isEmpty then v else mx)
    else if p ≥ uvminColPos then classifyUV rest (if mn.isEmpty then v else mn, mx)
    else classifyUV rest (mn, mx)

/-- Classification plus the fallback of lines 115-118: if the loop filled
neither slot and a candidate exists, the first candidate becomes UV-max. -/
def resolveUV (cands : List (List Char × Int)) : List Char × List Char :=
  let r := classifyUV cands ([], [])
  if r.1.isEmpty && r.2.isEmpty then
    match cands with
    | [] => r
    | (v, _) :: _ => (r.1, v)
  else r

/-- Tail of `parse_band_line_robust` after the flux index is known: checked
list accesses (`parts[flux_idx]`, `codes[0]`..`codes[4]`) return through
`Option`, with outer `none` modelling an `IndexError`; `some none` is the
parse-failure return `None`. -/
def parseBandCore (orig : List Char) (parts : List (List Char)) (band : List Char) (fi : Nat) :
    Option (Option BandRecord) :=
  match parts.get? fi with
  | none => none
  | some flux =>
    let codes := (parts.drop 1).take (fi - 1)
    if codes.length < 5 then some none
    else
      match codes.get? 0, codes.get? 1, codes.get? 2, codes.get? 3, codes.get? 4 with
      | some c0, some c1, some c2, some c3, some c4 =>
        let uv := resolveUV (mkCands orig parts fi flux)
        some (some
          { BAND := ⟨band⟩, BAND_CODE := ⟨c0⟩, A_CODE := ⟨c1⟩, B_CODE := ⟨c2⟩,
            C_CODE := ⟨c3⟩, D_CODE := ⟨c4⟩, FLUX_JY := ⟨flux⟩,
            UVMIN_KLAMBDA := ⟨uv.1⟩, UVMAX_KLAMBDA := ⟨uv.2⟩ })
      | _, _, _, _, _ => none

/-- Full `parse_band_line_robust` body inside the `try` block: outer `none`
models an uncaught exception reaching the `except` handler, `some none` the
explicit `return None` branches, `some (some r)` a parsed record. -/
def parseBandSafe (line : String) : Option (Option BandRecord) :=
  let orig := line.data
  let parts := bandParts line
  if parts.length < 7 then some none
  else
    match parts.get? 0 with
    | none => none
    | some band =>
      match findFluxSafe parts with
      | none => none
      | some none => some none
      | some (some fi) => parseBandCore orig parts band fi

/-- `parse_band_line_robust` as observed by callers: the `except` handler
turns any raised exception into `None`. -/
def parseBandRobust (line : String) : Option BandRecord :=
  match parseBandSafe line with
  | none => none
  | some r => r

/-- The UV candidate list computed for a line by `parse_band_line_robust`
(empty when the guards preceding candidate collection fail). -/
def uvCandsOfLine (line : String) : List (List Char × Int) :=
  let parts := bandParts line
  if parts.length < 7 then []
  else
    match findFluxSafe parts with
    | some (some fi) =>
      match parts.get? fi with
      | some flux => mkCands line.data parts fi flux
      | none => []
    | _ => []

/-- A token the flux scan accepts: matches the numeric regex and has value
strictly greater than `0.05`. -/
def isFluxTok (t : List Char) : Bool :=
  match decVal? t with
  | some v => decGt005 v
  | none => false

/-- Index of the first flux-acceptable token, written as a plain first-index
search; `findFluxSafe` is proved to compute exactly this. -/
def fluxIdxSpec : List (List Char) → Option Nat
  | [] => none
  | t :: ts => if isFluxTok t then some 0 else (fluxIdxSpec ts).map (· + 1)

/-! ### Regular-expression engine

A small abstract syntax covering exactly the constructs appearing in the
three patterns of `parse_cal_block` (`jheader_pat`, `bheader_pat`,
`band_line_pat`): literals, single-character classes, greedy `+`/`*`/`?`,
alternation (left branch first) and numbered capturing groups.  `matchRE`
implements standard backtracking with greedy quantifiers in
continuation-passing style, which is the semantics Python's `re.match`
gives these patterns; all quantifiers in the source patterns range over
character classes, so greedy repetition is a bounded search over how many
characters of the maximal run to consume, longest first. -/

/-- Capture list: group number paired with captured characters, most recent
binding first. -/
abbrev Caps := List (Nat × List Char)

/-- Regex abstract syntax for the patterns of `parse_cal_block`. -/
inductive RE where
  | lit : List Char → RE
  | cls : (Char → Bool) → RE
  | plus : (Char → Bool) → RE
  | star : (Char → Bool) → RE
  | seq : RE → RE → RE
  | alt : RE → RE → RE
  | opt : RE → RE
  | grp : Nat → RE → RE

/-- Greedy `*` over a character class: try consuming `n` characters of the
maximal run, longest first, down to zero. -/
def greedyStar (k : List Char → Caps → Option Caps) (cs : List Char) (caps : Caps) :
    Nat → Option Caps
  | 0 => k cs caps
  | n + 1 =>
    match k (cs.drop (n + 1)) caps with
    | some r => some r
    | none => greedyStar k cs caps n

/-- Greedy `+` over a character class: like `greedyStar` but at least one
character must be consumed. -/
def greedyPlus (k : List Char → Caps → Option Caps) (cs : List Char) (caps : Caps) :
    Nat → Option Caps
  | 0 => none
  | n + 1 =>
    match k (cs.drop (n + 1)) caps with
    | some r => some r
    | none => greedyPlus k cs caps n

/-- Backtracking matcher in continuation-passing style; `k` receives the
unconsumed input and the captures accumulated so far. -/
def matchRE : RE → List Char → Caps → (List Char → Caps → Option Caps) → Option Caps
  | .lit s, cs, caps, k => if s.isPrefixOf cs then k (cs.drop s.length) caps else none
  | .cls p, cs, caps, k =>
    match cs with
    | [] => none
    | c :: rest => if p c then k rest caps else none
  | .plus p, cs, caps, k => greedyPlus k cs caps (cs.takeWhile p).length
  | .star p, cs, caps, k => greedyStar k cs caps (cs.takeWhile p).length
  | .seq a b, cs, caps, k => matchRE a cs caps fun cs2 caps2 => matchRE b cs2 caps2 k
  | .alt a b, cs, caps, k =>
    match matchRE a cs caps k with
    | some r => some r
    | none => matchRE b cs caps k
  | .opt r, cs, caps, k =>
    match matchRE r cs caps k with
    | some res => some res
    | none => k cs caps
  | .grp n r, cs, caps, k =>
    matchRE r cs caps fun cs2 caps2 => k cs2 ((n, cs.take (cs.length - cs2.length)) :: caps2)

/-- Sequencing of a pattern list. -/
def seqList (rs : List RE) : RE := rs.foldr RE.seq (RE.lit [])

/-- Python `re.match` on a whole pattern: anchored at the start of the
string, free at the end; returns the captures of the first
(backtracking-order) match. -/
def reMatch (r : RE) (s : String) : Option Caps :=
  matchRE r s.data [] fun _ caps => some caps

/-- Most recent capture of a group, `none` when the group did not
participate in the match (Python `m.group(n) is None`). -/
def capLookup (caps : Caps) (n : Nat) : Option (List Char) :=
  (caps.find? fun e => e.1 == n).map fun e => e.2

/-- Class `\S`. -/
def nonWs (c : Char) : Bool := !isPyWs c

/-- Class `\w` (ASCII range). -/
def isWordCh (c : Char) : Bool := c.isAlpha || c.isDigit || c == '_'

/-- Class `[A-Za-z0-9]`. -/
def isAlnumCh (c : Char) : Bool := c.isAlpha || c.isDigit

/-- Class `[A-Za-z0-9.]`. -/
def isAlnumDotCh (c : Char) : Bool := isAlnumCh c || c == '.'

/-- Class `[^\)]`. -/
def notRParen (c : Char) : Bool := c != ')'

/-- Class `[0-9.]`. -/
def digitDotCh (c : Char) : Bool := c.isDigit || c == '.'

/-- Class `[A-Z]`. -/
def isUpperCh (c : Char) : Bool := 'A' ≤ c && c ≤ 'Z'

/-- `jheader_pat` from `parse_cal_block`:
`^(?:\[(?P<iauname>\S+)\]\([^\)]+\)|(?P<iauname2>\S+))\s+J2000\s+(?P<pc>\w)\s+(?P<ra>\S+)\s+(?P<dec>\S+)\s*(?P<posref>[A-Za-z0-9]+)?\s*(?P<altname>[A-Za-z0-9.]+)?`
with groups numbered in order of appearance. -/
def jheaderRE : RE :=
  seqList
    [ .alt (seqList [.lit ['['], .grp 1 (.plus nonWs), .lit [']', '('],
                     .plus notRParen, .lit [')']])
           (.grp 2 (.plus nonWs)),
      .plus isPyWs, .lit ['J', '2', '0', '0', '0'], .plus isPyWs,
      .grp 3 (.cls isWordCh), .plus isPyWs,
      .grp 4 (.plus nonWs), .plus isPyWs,
      .grp 5 (.plus nonWs), .star isPyWs,
      .opt (.grp 6 (.plus isAlnumCh)), .star isPyWs,
      .opt (.grp 7 (.plus isAlnumDotCh)) ]

/-- `bheader_pat` from `parse_cal_block`:
`^(?:\[(?P<iauname>\S+)\]|(?P<iauname2>\S+))\s+B1950\s+(?P<pc>\w)\s+(?P<ra>\S+)\s+(?P<dec>\S+)`. -/
def bheaderRE : RE :=
  seqList
    [ .alt (seqList [.lit ['['], .grp 1 (.plus nonWs), .lit [']']])
           (.grp 2 (.plus nonWs)),
      .plus isPyWs, .lit ['B', '1', '9', '5', '0'], .plus isPyWs,
      .grp 3 (.cls isWordCh), .plus isPyWs,
      .grp 4 (.plus nonWs), .plus isPyWs,
      .grp 5 (.plus nonWs) ]

/-- `band_line_pat` from `parse_cal_block`:
`^\s*([0-9.]+(?:cm|mm))\s+([A-Z])\s+`. -/
def bandLineRE : RE :=
  seqList
    [ .star isPyWs,
      .grp 1 (.seq (.plus digitDotCh) (.alt (.lit ['c', 'm']) (.lit ['m', 'm']))),
      .plus isPyWs, .grp 2 (.cls isUpperCh), .plus isPyWs ]

/-- J2000 header match of a cleaned line. -/
def jmatchCaps (s : String) : Option Caps := reMatch jheaderRE s

/-- B1950 header match of a cleaned line. -/
def bmatchCaps (s : String) : Option Caps := reMatch bheaderRE s

/-- Band-line shape test of a cleaned line. -/
def bandMatches (s : String) : Bool := (reMatch bandLineRE s).isSome

/-! ### Line sanitizer (`clean_line`) -/

/-- One pass of `re.sub` over the input: at each position, if the head-
anchored matcher fires it returns the replacement and the number of
characters consumed (always at least one for the patterns in use); matched
spans are replaced and scanning resumes after them. -/
def subAllGo (tryM : List Char → Option (List Char × Nat)) : List Char → Nat → List Char
  | [], _ => []
  | _ :: cs, k + 1 => subAllGo tryM cs k
  | c :: cs, 0 =>
    match tryM (c :: cs) with
    | some (rep, n) => rep ++ subAllGo tryM cs (n - 1)
    | none => c :: subAllGo tryM cs 0

/-- `re.sub(pattern, replacement, s)` for a head-anchored matcher. -/
def subAll (tryM : List Char → Option (List Char × Nat)) (cs : List Char) : List Char :=
  subAllGo tryM cs 0

/-- Head-anchored matcher for `\[([^\]]*)\]\([^\)]*\)` (markdown link),
replacement `\1`: both character-class repetitions are maximal runs since
the following literal is excluded from the class. -/
def tryLink : List Char → Option (List Char × Nat)
  | '[' :: rest =>
    let cap := rest.takeWhile fun c => c != ']'
    (match rest.drop cap.length with
     | ']' :: '(' :: rest2 =>
       let body := rest2.takeWhile fun c => c != ')'
       (match rest2.drop body.length with
        | ')' :: _ => some (cap, cap.length + body.length + 4)
        | _ => none)
     | _ => none)
  | _ => none

/-- Characters admitted by the class `[^\s)]`. -/
def urlCh (c : Char) : Bool := !isPyWs c && c != ')'

/-- Occurrence test for `://` strictly inside a run (at least one run
character before and after), which is exactly when Python's backtracking
makes `[^\s)]+://[^\s)]+` cover the run. -/
def hasInnerScheme (run : List Char) : Bool :=
  (List.range run.length).any fun r =>
    1 ≤ r && [':', '/', '/'].isPrefixOf (run.drop r) && r + 3 < run.length

/-- Head-anchored matcher for `\([^\s)]+://[^\s)]+\)` (parenthesized URL),
replacement empty. -/
def tryUrlParen : List Char → Option (List Char × Nat)
  | '(' :: rest =>
    let run := rest.takeWhile urlCh
    (match rest.drop run.length with
     | ')' :: _ => if hasInnerScheme run then some ([], run.length + 2) else none
     | _ => none)
  | _ => none

/-- Head-anchored matcher for `http[s]?://\S+` (bare URL), replacement
empty. -/
def tryHttp (cs : List Char) : Option (List Char × Nat) :=
  if ['h', 't', 't', 'p', ':', '/', '/'].isPrefixOf cs then
    let run := (cs.drop 7).takeWhile nonWs
    if run.isEmpty then none else some ([], 7 + run.length)
  else if ['h', 't', 't', 'p', 's', ':', '/', '/'].isPrefixOf cs then
    let run := (cs.drop 8).takeWhile nonWs
    if run.isEmpty then none else some ([], 8 + run.length)
  else none

/-- `clean_line` from the source: unwrap markdown links, delete
parenthesized URLs, delete bare URLs, strip. -/
def cleanLine (s : String) : String :=
  ⟨pyStripL (subAll tryHttp (subAll tryUrlParen (subAll tryLink s.data)))⟩

/-! ### Block parsing (`parse_cal_block`) -/

/-- J2000 header fields as assembled at lines 168-176 of the source. -/
structure HeaderJ where
  IAU_NAME : String
  EQUINOX : String
  PC : String
  RA : String
  DEC : String
  POS_REF : String
  ALT_NAME : String
deriving DecidableEq, Repr

/-- B1950 header fields as assembled at lines 184-190 of the source. -/
structure HeaderB where
  IAU_NAME : String
  EQUINOX : String
  PC : String
  RA : String
  DEC : String
deriving DecidableEq, Repr

/-- The header dictionary when no line matched: `header.get(tag, "")` on an
empty dict yields the empty string for every field. -/
def emptyHJ : HeaderJ := ⟨"", "", "", "", "", "", ""⟩

/-- The B1950 dictionary when no line matched. -/
def emptyHB : HeaderB := ⟨"", "", "", "", ""⟩

/-- Python `a or b` on two optional group values with a final `or ""`
(used as `m.group('iauname') or m.group('iauname2')`): a missing or empty
first operand falls through to the second, a missing or empty result is the
empty string. -/
def pyOrStr (a b : Option (List Char)) : String :=
  match a with
  | some s => if s.isEmpty then ⟨(b.getD [])⟩ else ⟨s⟩
  | none => ⟨(b.getD [])⟩

/-- Group value with the `or ""` default of the source. -/
def capStr (caps : Caps) (n : Nat) : String := ⟨(capLookup caps n).getD []⟩

/-- J2000 header record from a successful `jheader_pat` match. -/
def mkHJ (caps : Caps) : HeaderJ :=
  { IAU_NAME := pyOrStr (capLookup caps 1) (capLookup caps 2),
    EQUINOX := "J2000",
    PC := capStr caps 3, RA := capStr caps 4, DEC := capStr caps 5,
    POS_REF := capStr caps 6, ALT_NAME := capStr caps 7 }

/-- B1950 header record from a successful `bheader_pat` match. -/
def mkHB (caps : Caps) : HeaderB :=
  { IAU_NAME := pyOrStr (capLookup caps 1) (capLookup caps 2),
    EQUINOX := "B1950",
    PC := capStr caps 3, RA := capStr caps 4, DEC := capStr caps 5 }

/-- The header extracted from the last line of a list that matches
`jheader_pat`, `none` when no line matches; the block loop is proved to
keep exactly this header. -/
def lastJHeader (ls : List String) : Option HeaderJ :=
  ls.reverse.findSome? fun s => (jmatchCaps s).map mkHJ

/-- One calibrator record: the J2000 and B1950 header dictionaries (with
`get(tag, "")` defaults applied) and the band records in source order. -/
structure CalRecord where
  j2000 : HeaderJ
  b1950 : HeaderB
  bands : List BandRecord
deriving DecidableEq, Repr

/-- Line filter of `parse_cal_block` (lines 154-157): keep lines that strip
to something nonempty and do not start with `-`, `=` or `BAND`. -/
def keepLine (l : String) : Bool :=
  let st := pyStripL l.data
  !st.isEmpty && !(['-'].isPrefixOf st) && !(['='].isPrefixOf st) &&
    !(['B', 'A', 'N', 'D'].isPrefixOf st)

/-- Filtered and sanitized lines of a block. -/
def filteredLines (bl : List String) : List String := (bl.filter keepLine).map cleanLine

/-- Mutable state of the `parse_cal_block` loop: `none` models the initial
empty dictionaries. -/
structure BlockSt where
  hj : Option HeaderJ
  hb : Option HeaderB
  bands : List BandRecord

/-- One iteration of the `parse_cal_block` loop (lines 161-200): a J2000
header match overwrites `header`, else a B1950 match overwrites `b1950`,
else a band-shaped line is parsed and appended when parsing succeeds. -/
def blockStep (st : BlockSt) (s : String) : BlockSt :=
  match jmatchCaps s with
  | some caps => { st with hj := some (mkHJ caps) }
  | none =>
    match bmatchCaps s with
    | some caps => { st with hb := some (mkHB caps) }
    | none =>
      if bandMatches s then
        match parseBandRobust s with
        | some b => { st with bands := st.bands ++ [b] }
        | none => st
      else st

/-- `parse_cal_block`: run the loop over the filtered sanitized lines and
assemble the record with `get(tag, "")` defaults. -/
def parseCalBlock (bl : List String) : CalRecord :=
  let st := (filteredLines bl).foldl blockStep ⟨none, none, []⟩
  ⟨st.hj.getD emptyHJ, st.hb.getD emptyHB, st.bands⟩

/-! ### Block segmentation (`scrape_and_export_xml`, lines 232-252) -/

/-- The block-terminator test on the remaining lines: the current line is
the last line (`idx+1 == len(lines)`) or the next line is blank
(`not lines[idx+1].strip()`). -/
def atTerminator : List String → Bool
  | [] => true
  | r :: _ => (pyStripL r.data).isEmpty

/-- The literal marker `J2000`. -/
def j2000Marker : List Char := ['J', '2', '0', '0', '0']

/-- Segmentation loop of `scrape_and_export_xml`: a line containing `J2000`
resets the buffer and sets the in-block flag (and `continue`s, skipping the
terminator test); while in a block every line is appended and the block is
emitted when the terminator test fires. -/
def segGo : List String → Bool → List String → List (List String)
  | [], _, _ => []
  | l :: rest, inb, buf =>
    if pyContains l.data j2000Marker then segGo rest true [l]
    else if inb then
      if atTerminator rest then (buf ++ [l]) :: segGo rest false (buf ++ [l])
      else segGo rest true (buf ++ [l])
    else segGo rest inb buf

/-- The same loop with the per-block parse inlined, as in the source (lines
244-252, where `parse_cal_block` is called and its result appended at the
moment a block closes). -/
def processGo : List String → Bool → List String → List CalRecord
  | [], _, _ => []
  | l :: rest, inb, buf =>
    if pyContains l.data j2000Marker then processGo rest true [l]
    else if inb then
      if atTerminator rest then parseCalBlock (buf ++ [l]) :: processGo rest false (buf ++ [l])
      else processGo rest true (buf ++ [l])
    else processGo rest inb buf

/-! ### Persisted XML form and the query side

The persisted form is modelled at the level of the element tree:
`ElementTree` nodes carry a tag, optional text, children and an optional
tail.  `calToXml` mirrors the tree built in `parse_cal_block` (lines
202-215), `collectionToXml` the root assembly of `scrape_and_export_xml`
(lines 254-258) including the `indent` pass, and the readers mirror the
`find`/`findall`/`findtext` accesses of `src/query.py`.  Writing the tree
to a file and re-parsing it preserves tags, child order and leaf text
(empty text re-loads as missing text, which `findtext` with a default again
reads as the empty string), so the file round trip is the identity in the
model. -/

/-- An `ElementTree` element. -/
inductive Xml where
  | mk : String → Option String → List Xml → Option String → Xml

/-- Element tag. -/
def Xml.tag : Xml → String
  | .mk t _ _ _ => t

/-- Element text. -/
def Xml.text : Xml → Option String
  | .mk _ x _ _ => x

/-- Element children. -/
def Xml.children : Xml → List Xml
  | .mk _ _ c _ => c

/-- Element tail. -/
def Xml.tail : Xml → Option String
  | .mk _ _ _ t => t

/-- The falsiness test `not elem.text or not elem.text.strip()` used by
`indent`. -/
def wsFalsy : Option String → Bool
  | none => true
  | some s => (pyStripL s.data).isEmpty

/-- A run of `2 * n` spaces. -/
def pad : Nat → List Char
  | 0 => []
  | n + 1 => ' ' :: ' ' :: pad n

/-- The `indent` helper of the source (lines 11-22), which rewrites the
whitespace-only `text` and `tail` slots so the written file is pretty-
printed; it never touches the text of a childless element. -/
def indentX (level : Nat) : Xml → Xml
  | .mk tag text children tail =>
    match children with
    | [] =>
      if level ≠ 0 && wsFalsy tail then .mk tag text [] (some ⟨'\n' :: pad level⟩)
      else .mk tag text [] tail
    | c :: cs =>
      .mk tag
        (if wsFalsy text then some ⟨'\n' :: pad (level + 1)⟩ else text)
        ((c :: cs).attach.map fun x => indentX (level + 1) x.1)
        (if wsFalsy tail then some ⟨'\n' :: pad level⟩ else tail)
termination_by x => sizeOf x
decreasing_by
  have h := List.sizeOf_lt_of_mem x.2
  simp only [Xml.mk.sizeOf_spec]
  omega

/-- A leaf element as produced by `create_text_element`:
`text if text is not None else ""` always stores a string. -/
def leafEl (tag : String) (text : String) : Xml := .mk tag (some text) [] none

/-- The field tags of a `j2000` header element, in source order. -/
def jTags : List String := ["IAU_NAME", "EQUINOX", "PC", "RA", "DEC", "POS_REF", "ALT_NAME"]

/-- The field tags of a `b1950` header element, in source order. -/
def bTags : List String := ["IAU_NAME", "EQUINOX", "PC", "RA", "DEC"]

/-- Field access of a J2000 header record by tag name (the dictionary
lookup `header.get(tag, "")` after a match stored all seven keys). -/
def HeaderJ.get (h : HeaderJ) : String → String
  | "IAU_NAME" => h.IAU_NAME
  | "EQUINOX" => h.EQUINOX
  | "PC" => h.PC
  | "RA" => h.RA
  | "DEC" => h.DEC
  | "POS_REF" => h.POS_REF
  | "ALT_NAME" => h.ALT_NAME
  | _ => ""

/-- Field access of a B1950 header record by tag name. -/
def HeaderB.get (h : HeaderB) : String → String
  | "IAU_NAME" => h.IAU_NAME
  | "EQUINOX" => h.EQUINOX
  | "PC" => h.PC
  | "RA" => h.RA
  | "DEC" => h.DEC
  | _ => ""

/-- A `band` element with its nine text children, in source order. -/
def bandToXml (b : BandRecord) : Xml :=
  .mk "band" none
    [ leafEl "BAND" b.BAND, leafEl "BAND_CODE" b.BAND_CODE,
      leafEl "A_CODE" b.A_CODE, leafEl "B_CODE" b.B_CODE,
      leafEl "C_CODE" b.C_CODE, leafEl "D_CODE" b.D_CODE,
      leafEl "FLUX_JY" b.FLUX_JY, leafEl "UVMIN_KLAMBDA" b.UVMIN_KLAMBDA,
      leafEl "UVMAX_KLAMBDA" b.UVMAX_KLAMBDA ] none

/-- The `calibrator` element built at the end of `parse_cal_block`. -/
def calToXml (c : CalRecord) : Xml :=
  .mk "calibrator" none
    [ .mk "header" none
        [ .mk "j2000" none (jTags.map fun t => leafEl t (c.j2000.get t)) none,
          .mk "b1950" none (bTags.map fun t => leafEl t (c.b1950.get t)) none ] none,
      .mk "bands" none (c.bands.map bandToXml) none ] none

/-- The root element written by `scrape_and_export_xml`, after `indent`. -/
def collectionToXml (cs : List CalRecord) : Xml :=
  indentX 0 (.mk "calibrators" none (cs.map calToXml) none)

/-- First child with a given tag (`Element.find` with a single-step path). -/
def findChild (x : Xml) (t : String) : Option Xml :=
  x.children.find? fun c => c.tag == t

/-- All children with a given tag (`Element.findall` with a single-step
path). -/
def findChildren (x : Xml) (t : String) : List Xml :=
  x.children.filter fun c => c.tag == t

/-- `Element.find` with a two-step path such as `header/j2000`: first
matching grandchild in document order. -/
def findPath2 (x : Xml) (a b : String) : Option Xml :=
  (((findChildren x a).map fun h => findChildren h b).flatten).head?

/-- `Element.findtext(tag, '')`: the empty string when the element is
missing or its text is missing. -/
def findtextD (x : Xml) (t : String) : String :=
  match findChild x t with
  | none => ""
  | some c => c.text.getD ""

/-- Query-side reconstruction of a band record from a `band` element. -/
def readBand (x : Xml) : BandRecord :=
  ⟨findtextD x "BAND", findtextD x "BAND_CODE", findtextD x "A_CODE", findtextD x "B_CODE",
   findtextD x "C_CODE", findtextD x "D_CODE", findtextD x "FLUX_JY",
   findtextD x "UVMIN_KLAMBDA", findtextD x "UVMAX_KLAMBDA"⟩

/-- Query-side reconstruction of a calibrator record from a `calibrator`
element, using the accessors of `src/query.py` (`find('header/j2000')`,
`findall('bands/band')`, `findtext(tag, '')`). -/
def readCal (x : Xml) : CalRecord :=
  { j2000 :=
      match findPath2 x "header" "j2000" with
      | none => emptyHJ
      | some j => ⟨findtextD j "IAU_NAME", findtextD j "EQUINOX", findtextD j "PC",
                   findtextD j "RA", findtextD j "DEC", findtextD j "POS_REF",
                   findtextD j "ALT_NAME"⟩,
    b1950 :=
      match findPath2 x "header" "b1950" with
      | none => emptyHB
      | some b => ⟨findtextD b "IAU_NAME", findtextD b "EQUINOX", findtextD b "PC",
                   findtextD b "RA", findtextD b "DEC"⟩,
    bands := ((findChildren x "bands").map fun bs => (findChildren bs "band").map readBand).flatten }

/-- Query-side reconstruction of the full ordered record sequence from the
root element (`root.findall('calibrator')`). -/
def readCollection (root : Xml) : List CalRecord :=
  (findChildren root "calibrator").map readCal

/-! ### Name lookup (`find_calibrator_by_name` in `src/query.py`) -/

/-- The loop of `find_calibrator_by_name`: walk the `calibrator` children
in order; a calibrator without a `header/j2000` element is passed over;
otherwise its stripped `IAU_NAME` text is compared with the query. -/
def findCalGo (nm : String) : List Xml → Option Xml
  | [] => none
  | c :: cs =>
    match findPath2 c "header" "j2000" with
    | none => findCalGo nm cs
    | some j => if stripStr (findtextD j "IAU_NAME") == nm then some c else findCalGo nm cs

/-- `find_calibrator_by_name(root, iau_name)`, including the `None` root
guard. -/
def findCalByName : Option Xml → String → Option Xml
  | none, _ => none
  | some root, nm => findCalGo nm (findChildren root "calibrator")

/-- The name test a calibrator element must pass to be returned. -/
def calNameMatches (nm : String) (c : Xml) : Bool :=
  match findPath2 c "header" "j2000" with
  | none => false
  | some j => stripStr (findtextD j "IAU_NAME") == nm

/-! ## Helper lemmas about the band-line parser -/

theorem findFluxGo_eq (ts : List (List Char)) :
    ∀ i, findFluxGo i ts = some ((fluxIdxSpec ts).map (· + i)) := by
  induction ts with
  | nil => intro i; rfl
  | cons t ts ih =>
    intro i
    cases hv : decVal? t with
    | none =>
      have hn : isNumTok t = false := by simp [isNumTok, hv]
      have hf : isFluxTok t = false := by simp [isFluxTok, hv]
      simp only [findFluxGo, hn, Bool.false_eq_true, if_false, ih, fluxIdxSpec, hf]
      cases fluxIdxSpec ts <;> simp <;> omega
    | some v =>
      have hn : isNumTok t = true := by simp [isNumTok, hv]
      have hf : isFluxTok t = decGt005 v := by simp [isFluxTok, hv]
      cases hg : decGt005 v with
      | true =>
        simp only [findFluxGo, hn, if_true, hv, hg, fluxIdxSpec, hf]
        simp
      | false =>
        simp only [findFluxGo, hn, if_true, hv, hg, Bool.false_eq_true, if_false, ih,
          fluxIdxSpec, hf]
        cases fluxIdxSpec ts <;> simp <;> omega

theorem findFluxSafe_eq (parts : List (List Char)) :
    findFluxSafe parts = some (fluxIdxSpec parts) := by
  rw [findFluxSafe, findFluxGo_eq]
  cases fluxIdxSpec parts <;> simp

theorem fluxIdxSpec_lt_length {l : List (List Char)} {fi : Nat}
    (h : fluxIdxSpec l = some fi) : fi < l.length := by
  induction l generalizing fi with
  | nil => exact absurd h (by simp [fluxIdxSpec])
  | cons t ts ih =>
    rw [fluxIdxSpec] at h
    split at h
    · cases h; simp
    · cases hts : fluxIdxSpec ts with
      | none => rw [hts] at h; exact absurd h (by simp)
      | some n =>
        rw [hts] at h
        cases h
        have := ih hts
        simp
        omega

theorem fluxIdxSpec_none_iff (l : List (List Char)) :
    fluxIdxSpec l = none ↔ ∀ t ∈ l, isFluxTok t = false := by
  induction l with
  | nil => simp [fluxIdxSpec]
  | cons t ts ih =>
    rw [fluxIdxSpec]
    cases h : isFluxTok t with
    | true =>
      simp only [if_true]
      constructor
      · intro hx; exact absurd hx (by simp)
      · intro ha
        have ht := ha t (List.mem_cons_self t ts)
        rw [h] at ht
        exact absurd ht (by simp)
    | false =>
      simp only [Bool.false_eq_true, if_false]
      have hmap : (Option.map (fun x => x + 1) (fluxIdxSpec ts) = none) ↔
          fluxIdxSpec ts = none := by
        cases fluxIdxSpec ts <;> simp
      rw [hmap, ih]
      constructor
      · intro ha x hx
        cases List.mem_cons.mp hx with
        | inl he => rw [he]; exact h
        | inr hm => exact ha x hm
      · intro ha x hx
        exact ha x (List.mem_cons.mpr (Or.inr hx))

theorem get?_some_of_lt {α : Type} (l : List α) (n : Nat) (h : n < l.length) :
    ∃ x, l.get? n = some x := by
  cases hg : l.get? n with
  | none => exact absurd (List.get?_eq_none.mp hg) (by omega)
  | some x => exact ⟨x, rfl⟩

theorem parseBandSafe_total (line : String) : ∃ o, parseBandSafe line = some o := by
  simp only [parseBandSafe]
  by_cases h7 : (bandParts line).length < 7
  · rw [if_pos h7]; exact ⟨none, rfl⟩
  · rw [if_neg h7]
    obtain ⟨band, hband⟩ := get?_some_of_lt (bandParts line) 0 (by omega)
    rw [hband, findFluxSafe_eq]
    cases hfi : fluxIdxSpec (bandParts line) with
    | none => exact ⟨none, rfl⟩
    | some fi =>
      dsimp only
      simp only [parseBandCore]
      obtain ⟨flux, hflux⟩ := get?_some_of_lt _ fi (fluxIdxSpec_lt_length hfi)
      rw [hflux]
      dsimp only
      by_cases h5 : (((bandParts line).drop 1).take (fi - 1)).length < 5
      · rw [if_pos h5]; exact ⟨none, rfl⟩
      · rw [if_neg h5]
        obtain ⟨x0, h0⟩ := get?_some_of_lt (((bandParts line).drop 1).take (fi - 1)) 0 (by omega)
        obtain ⟨x1, h1⟩ := get?_some_of_lt (((bandParts line).drop 1).take (fi - 1)) 1 (by omega)
        obtain ⟨x2, h2⟩ := get?_some_of_lt (((bandParts line).drop 1).take (fi - 1)) 2 (by omega)
        obtain ⟨x3, h3⟩ := get?_some_of_lt (((bandParts line).drop 1).take (fi - 1)) 3 (by omega)
        obtain ⟨x4, h4⟩ := get?_some_of_lt (((bandParts line).drop 1).take (fi - 1)) 4 (by omega)
        rw [h0, h1, h2, h3, h4]
        exact ⟨_, rfl⟩

theorem parseBandSafe_of_robust {line : String} {r : BandRecord}
    (h : parseBandRobust line = some r) : parseBandSafe line = some (some r) := by
  unfold parseBandRobust at h
  cases hs : parseBandSafe line with
  | none => rw [hs] at h; exact absurd h (by simp)
  | some o =>
    rw [hs] at h
    dsimp only at h
    rw [h]

theorem parseBand_fields {line : String} {r : BandRecord}
    (h : parseBandSafe line = some (some r)) :
    ∃ fi flux,
      fluxIdxSpec (bandParts line) = some fi ∧
      (bandParts line).get? fi = some flux ∧
      uvCandsOfLine line = mkCands line.data (bandParts line) fi flux ∧
      r.UVMIN_KLAMBDA = ⟨(resolveUV (mkCands line.data (bandParts line) fi flux)).1⟩ ∧
      r.UVMAX_KLAMBDA = ⟨(resolveUV (mkCands line.data (bandParts line) fi flux)).2⟩ := by
  simp only [parseBandSafe] at h
  split at h
  · exact absurd h (by simp)
  case isFalse h7 =>
  cases hband : (bandParts line).get? 0 with
  | none => rw [hband] at h; exact absurd h (by simp)
  | some band =>
  rw [hband, findFluxSafe_eq] at h
  cases hfi : fluxIdxSpec (bandParts line) with
  | none => rw [hfi] at h; exact absurd h (by simp)
  | some fi =>
  rw [hfi] at h
  dsimp only at h
  simp only [parseBandCore] at h
  cases hflux : (bandParts line).get? fi with
  | none => rw [hflux] at h; exact absurd h (by simp)
  | some flux =>
  rw [hflux] at h
  dsimp only at h
  split at h
  · exact absurd h (by simp)
  case isFalse h5 =>
  cases h0 : (((bandParts line).drop 1).take (fi - 1)).get? 0 with
  | none => rw [h0] at h; simp at h
  | some x0 =>
  cases h1 : (((bandParts line).drop 1).take (fi - 1)).get? 1 with
  | none => rw [h0, h1] at h; simp at h
  | some x1 =>
  cases h2 : (((bandParts line).drop 1).take (fi - 1)).get? 2 with
  | none => rw [h0, h1, h2] at h; simp at h
  | some x2 =>
  cases h3 : (((bandParts line).drop 1).take (fi - 1)).get? 3 with
  | none => rw [h0, h1, h2, h3] at h; simp at h
  | some x3 =>
  cases h4 : (((bandParts line).drop 1).take (fi - 1)).get? 4 with
  | none => rw [h0, h1, h2, h3, h4] at h; simp at h
  | some x4 =>
  rw [h0, h1, h2, h3, h4] at h
  dsimp only at h
  simp only [Option.some.injEq] at h
  refine ⟨fi, flux, rfl, hflux, ?_, ?_, ?_⟩
  · simp only [uvCandsOfLine]
    rw [if_neg h7, findFluxSafe_eq]
    rw [hfi]
    dsimp only
    rw [hflux]
  · rw [← h]
  · rw [← h]

theorem resolveUV_pair (a b : List Char) (p q : Int)
    (hp1 : 35 ≤ p) (hp2 : p < 46) (hq : 46 ≤ q) :
    resolveUV [(a, p), (b, q)] = (a, b) ∧ resolveUV [(b, q), (a, p)] = (a, b) := by
  have hnp : (p ≥ uvmaxColPos) = False := by
    simp only [uvmaxColPos, eq_iff_iff, iff_false]; omega
  have hpp : (p ≥ uvminColPos) = True := by
    simp only [uvminColPos, eq_iff_iff, iff_true]; omega
  have hqq : (q ≥ uvmaxColPos) = True := by
    simp only [uvmaxColPos, eq_iff_iff, iff_true]; omega
  have h1 : classifyUV [(a, p), (b, q)] ([], []) = (a, b) := by
    simp only [classifyUV, hnp, hpp, hqq, if_true, if_false, List.isEmpty_nil, ite_true]
  have h2 : classifyUV [(b, q), (a, p)] ([], []) = (a, b) := by
    simp only [classifyUV, hnp, hpp, hqq, if_true, if_false, List.isEmpty_nil, ite_true]
  constructor
  · simp only [resolveUV, h1]
    cases ha : a.isEmpty with
    | false => simp [ha]
    | true =>
      cases hb : b.isEmpty with
      | false => simp [ha, hb]
      | true =>
        have ha2 : a = [] := List.isEmpty_iff.mp ha
        have hb2 : b = [] := List.isEmpty_iff.mp hb
        subst ha2; subst hb2
        simp
  · simp only [resolveUV, h2]
    cases ha : a.isEmpty with
    | false => simp [ha]
    | true =>
      cases hb : b.isEmpty with
      | false => simp [ha, hb]
      | true =>
        have ha2 : a = [] := List.isEmpty_iff.mp ha
        have hb2 : b = [] := List.isEmpty_iff.mp hb
        subst ha2; subst hb2
        simp

theorem resolveUV_single_low (v : List Char) (p : Int) (hp : p < 35) :
    resolveUV [(v, p)] = ([], v) := by
  have hnp : (p ≥ uvmaxColPos) = False := by
    simp only [uvmaxColPos, eq_iff_iff, iff_false]; omega
  have hnm : (p ≥ uvminColPos) = False := by
    simp only [uvminColPos, eq_iff_iff, iff_false]; omega
  simp [resolveUV, classifyUV, hnp, hnm]

/-! ## C1 -/

/-- C1 counterexample.  The claim asserts that when a band line has a UV-min
numeric token (actual character offset in `[35, 46)`) and a UV-max numeric
token (actual offset `≥ 46`) after the flux token, the former is assigned to
`uv_min_kilolambda` and the latter to `uv_max_kilolambda`, including when
the two tokens are equal strings.  On this line both tokens are `50`, at
actual offsets 36 and 47; `str.find` locates both candidates at offset 36
(the first occurrence after the flux token), so the second candidate is
classified as a UV-min candidate for an already filled slot and dropped:
`UVMAX_KLAMBDA` stays empty instead of receiving `50`. -/
theorem c1_counterexample :
    uvCandsOfLine "20cm L X P P P 2.40                 50         50" =
      [(['5', '0'], 36), (['5', '0'], 36)] ∧
    parseBandRobust "20cm L X P P P 2.40                 50         50" =
      some { BAND := "20cm", BAND_CODE := "L", A_CODE := "X", B_CODE := "P", C_CODE := "P",
             D_CODE := "P", FLUX_JY := "2.40", UVMIN_KLAMBDA := "50", UVMAX_KLAMBDA := "" } ∧
    (parseBandRobust "20cm L X P P P 2.40                 50         50").map
      BandRecord.UVMAX_KLAMBDA ≠ some "50" := by
  refine ⟨by decide, by decide, by decide⟩

/-- C1 (amended): for every band line that
`parse_band_line_robust` accepts, if the candidate collection locates
exactly two numeric tokens, one at an offset in `[35, 46)` and one at an
offset `≥ 46` — in either order of appearance in the token stream — then
the record's `uv_min_kilolambda` is the former token and
`uv_max_kilolambda` the latter.  (The offsets are the ones `str.find`
computes searching after the flux token's first occurrence; the original
claim's reading with actual token offsets fails when the two tokens are
equal strings, see the counterexample.) -/
theorem c1_uv_assignment_located_offsets (line : String) (r : BandRecord)
    (a b : List Char) (p q : Int)
    (hr : parseBandRobust line = some r)
    (hc : uvCandsOfLine line = [(a, p), (b, q)] ∨ uvCandsOfLine line = [(b, q), (a, p)])
    (hp1 : 35 ≤ p) (hp2 : p < 46) (hq : 46 ≤ q) :
    r.UVMIN_KLAMBDA = ⟨a⟩ ∧ r.UVMAX_KLAMBDA = ⟨b⟩ := by
  obtain ⟨fi, flux, _, _, hcand, hmn, hmx⟩ := parseBand_fields (parseBandSafe_of_robust hr)
  rw [hcand] at hc
  obtain ⟨hone, htwo⟩ := resolveUV_pair a b p q hp1 hp2 hq
  cases hc with
  | inl hcc => rw [hcc, hone] at hmn hmx; exact ⟨hmn, hmx⟩
  | inr hcc => rw [hcc, htwo] at hmn hmx; exact ⟨hmn, hmx⟩

/-- C1 witness: a concrete line with distinct UV tokens `60` (located at
offset 36) and `70` (located at offset 47); the amended theorem applies and
yields `UVMIN_KLAMBDA = "60"`, `UVMAX_KLAMBDA = "70"`. -/
theorem c1_witness :
    BandRecord.UVMIN_KLAMBDA
        ⟨"20cm", "L", "X", "P", "P", "P", "2.40", "60", "70"⟩ = ⟨['6', '0']⟩ ∧
    BandRecord.UVMAX_KLAMBDA
        ⟨"20cm", "L", "X", "P", "P", "P", "2.40", "60", "70"⟩ = ⟨['7', '0']⟩ :=
  c1_uv_assignment_located_offsets "20cm L X P P P 2.40                 60         70"
    ⟨"20cm", "L", "X", "P", "P", "P", "2.40", "60", "70"⟩ ['6', '0'] ['7', '0'] 36 47
    (by decide) (Or.inl (by decide)) (by decide) (by decide) (by decide)

/-! ## C2 -/

/-- C2 counterexample.  The claim asserts that a band line whose single
numeric token after the flux sits at an offset below 35 leaves both UV
fields absent.  On this line the lone candidate `30` is located at offset
20: the classification loop discards it, but the fallback of lines 115-118
then assigns it to `UVMAX_KLAMBDA`, so UV-max is not absent. -/
theorem c2_counterexample :
    uvCandsOfLine "20cm L X P P P 2.40 30" = [(['3', '0'], 20)] ∧
    parseBandRobust "20cm L X P P P 2.40 30" =
      some { BAND := "20cm", BAND_CODE := "L", A_CODE := "X", B_CODE := "P", C_CODE := "P",
             D_CODE := "P", FLUX_JY := "2.40", UVMIN_KLAMBDA := "", UVMAX_KLAMBDA := "30" } ∧
    (parseBandRobust "20cm L X P P P 2.40 30").map BandRecord.UVMAX_KLAMBDA ≠ some "" := by
  refine ⟨by decide, by decide, by decide⟩

/-- C2 (amended): for every band line that `parse_band_line_robust` accepts
whose candidate collection holds exactly one numeric token, located at an
offset below the UV-min threshold 35, the classification discards it but
the single-value fallback then assigns it to `uv_max_kilolambda`:
`uv_min_kilolambda` stays absent and `uv_max_kilolambda` receives the
token (the frozen claim instead said both fields stay absent). -/
theorem c2_lone_low_candidate_fallback (line : String) (r : BandRecord)
    (v : List Char) (p : Int)
    (hr : parseBandRobust line = some r)
    (hc : uvCandsOfLine line = [(v, p)])
    (hp : p < 35) :
    r.UVMIN_KLAMBDA = "" ∧ r.UVMAX_KLAMBDA = ⟨v⟩ := by
  obtain ⟨fi, flux, _, _, hcand, hmn, hmx⟩ := parseBand_fields (parseBandSafe_of_robust hr)
  rw [hcand] at hc
  rw [hc, resolveUV_single_low v p hp] at hmn hmx
  exact ⟨hmn, hmx⟩

/-- C2 witness: the amended theorem applied to the counterexample line,
giving `UVMIN_KLAMBDA = ""` and `UVMAX_KLAMBDA = "30"`. -/
theorem c2_witness :
    BandRecord.UVMIN_KLAMBDA
        ⟨"20cm", "L", "X", "P", "P", "P", "2.40", "", "30"⟩ = "" ∧
    BandRecord.UVMAX_KLAMBDA
        ⟨"20cm", "L", "X", "P", "P", "P", "2.40", "", "30"⟩ = ⟨['3', '0']⟩ :=
  c2_lone_low_candidate_fallback "20cm L X P P P 2.40 30"
    ⟨"20cm", "L", "X", "P", "P", "P", "2.40", "", "30"⟩ ['3', '0'] 20
    (by decide) (by decide) (by decide)

/-! ## C10 -/

/-- C10: for every input string, the body of `parse_band_line_robust`
completes without any internal operation failing (`parseBandSafe` never
returns the exception marker `none`), and the caller-visible result is
either `none` or a record carrying all nine fields (the `BandRecord`
structure); hence every internal extraction error is converted into the
`None` result rather than propagated. -/
theorem c10_no_exception_total (line : String) :
    ∃ o : Option BandRecord, parseBandSafe line = some o ∧ parseBandRobust line = o := by
  obtain ⟨o, ho⟩ := parseBandSafe_total line
  refine ⟨o, ho, ?_⟩
  unfold parseBandRobust
  rw [ho]

/-! ## C5 -/

theorem parseBandRobust_none_iff (line : String) :
    parseBandRobust line = none ↔ parseBandSafe line = some none := by
  obtain ⟨o, ho⟩ := parseBandSafe_total line
  unfold parseBandRobust
  rw [ho]
  simp

theorem parseBandSafe_some_none_iff (line : String) :
    parseBandSafe line = some none ↔
      (bandParts line).length < 7 ∨
      (∀ t ∈ bandParts line, isFluxTok t = false) ∨
      (∃ fi, fluxIdxSpec (bandParts line) = some fi ∧ fi - 1 < 5) := by
  simp only [parseBandSafe]
  by_cases h7 : (bandParts line).length < 7
  · rw [if_pos h7]; simp [h7]
  · rw [if_neg h7]
    obtain ⟨band, hband⟩ := get?_some_of_lt (bandParts line) 0 (by omega)
    rw [hband, findFluxSafe_eq]
    cases hfi : fluxIdxSpec (bandParts line) with
    | none =>
      dsimp only
      have hall := (fluxIdxSpec_none_iff (bandParts line)).mp hfi
      constructor
      · intro _; exact Or.inr (Or.inl hall)
      · intro _; rfl
    | some fi =>
      dsimp only
      simp only [parseBandCore]
      obtain ⟨flux, hflux⟩ := get?_some_of_lt _ fi (fluxIdxSpec_lt_length hfi)
      rw [hflux]
      dsimp only
      have hlen : (((bandParts line).drop 1).take (fi - 1)).length =
          min (fi - 1) ((bandParts line).length - 1) := by
        simp [List.length_take, List.length_drop]
      by_cases h5 : (((bandParts line).drop 1).take (fi - 1)).length < 5
      · rw [if_pos h5]
        have hfi5 : fi - 1 < 5 := by rw [hlen] at h5; omega
        constructor
        · intro _; exact Or.inr (Or.inr ⟨fi, rfl, hfi5⟩)
        · intro _; rfl
      · rw [if_neg h5]
        obtain ⟨x0, h0⟩ := get?_some_of_lt (((bandParts line).drop 1).take (fi - 1)) 0 (by omega)
        obtain ⟨x1, h1⟩ := get?_some_of_lt (((bandParts line).drop 1).take (fi - 1)) 1 (by omega)
        obtain ⟨x2, h2⟩ := get?_some_of_lt (((bandParts line).drop 1).take (fi - 1)) 2 (by omega)
        obtain ⟨x3, h3⟩ := get?_some_of_lt (((bandParts line).drop 1).take (fi - 1)) 3 (by omega)
        obtain ⟨x4, h4⟩ := get?_some_of_lt (((bandParts line).drop 1).take (fi - 1)) 4 (by omega)
        rw [h0, h1, h2, h3, h4]
        dsimp only
        constructor
        · intro hcon; exact absurd hcon (by simp)
        · intro hdis
          rcases hdis with hd | hd | hd
          · exact absurd hd h7
          · have hn := (fluxIdxSpec_none_iff (bandParts line)).mpr hd
            rw [hfi] at hn
            exact absurd hn (by simp)
          · obtain ⟨fi2, hfi2, hlt⟩ := hd
            have hfe : fi = fi2 := Option.some.inj hfi2
            rw [hlen] at h5
            omega

theorem blockStep_noop {s : String} (st : BlockSt)
    (hj : jmatchCaps s = none) (hb : bmatchCaps s = none)
    (hp : parseBandRobust s = none) :
    blockStep st s = st := by
  unfold blockStep
  rw [hj]
  dsimp only
  rw [hb]
  dsimp only
  rw [hp]
  split <;> rfl

theorem filteredLines_append (l1 l2 : List String) :
    filteredLines (l1 ++ l2) = filteredLines l1 ++ filteredLines l2 := by
  simp [filteredLines, List.filter_append]

/-- C5: a band line yields no record exactly when it splits into fewer than
7 tokens, or no token is a decimal number strictly greater than 0.05, or
fewer than 5 tokens lie between the band label and the flux token; and a
line failing in this way contributes nothing to its block — the block is
parsed exactly as though the line were absent, and still yields a record
(`parseCalBlock` is total). -/
theorem c5_line_failure_iff_and_skip :
    (∀ line : String, parseBandRobust line = none ↔
      (bandParts line).length < 7 ∨
      (∀ t ∈ bandParts line, isFluxTok t = false) ∨
      (∃ fi, fluxIdxSpec (bandParts line) = some fi ∧ fi - 1 < 5)) ∧
    (∀ (pre post : List String) (s : String),
      keepLine s = true → jmatchCaps (cleanLine s) = none →
      bmatchCaps (cleanLine s) = none → parseBandRobust (cleanLine s) = none →
      parseCalBlock (pre ++ s :: post) = parseCalBlock (pre ++ post)) := by
  constructor
  · intro line
    rw [parseBandRobust_none_iff]
    exact parseBandSafe_some_none_iff line
  · intro pre post s hk hj hb hp
    have h1 : filteredLines (pre ++ s :: post) =
        filteredLines pre ++ cleanLine s :: filteredLines post := by
      have he : pre ++ s :: post = pre ++ [s] ++ post := by simp
      rw [he, filteredLines_append, filteredLines_append]
      have hs1 : filteredLines [s] = [cleanLine s] := by
        simp [filteredLines, hk]
      rw [hs1]
      simp
    unfold parseCalBlock
    rw [h1, filteredLines_append, List.foldl_append, List.foldl_append, List.foldl_cons,
      blockStep_noop _ hj hb hp]

/-- C5 witness: the failure characterization evaluated at a two-token line
(failure by token count), and the skip property at a concrete block whose
middle line has no flux token: the block parses as though the line were
absent. -/
theorem c5_witness :
    (parseBandRobust "20cm L" = none) ∧
    parseCalBlock ["A J2000 P 1h +2d", "20cm L X P P P 0.01", "20cm L X P P P 2.40"] =
      parseCalBlock ["A J2000 P 1h +2d", "20cm L X P P P 2.40"] :=
  ⟨(c5_line_failure_iff_and_skip.1 "20cm L").mpr (Or.inl (by decide)),
   c5_line_failure_iff_and_skip.2 ["A J2000 P 1h +2d"] ["20cm L X P P P 2.40"]
     "20cm L X P P P 0.01" (by decide) (by decide) (by decide)
     ((c5_line_failure_iff_and_skip.1 "20cm L X P P P 0.01").mpr (Or.inr (Or.inl (by decide))))⟩

/-! ## C3 -/

theorem blockStep_hj (st : BlockSt) (s : String) :
    (blockStep st s).hj =
      match jmatchCaps s with
      | some caps => some (mkHJ caps)
      | none => st.hj := by
  unfold blockStep
  cases jmatchCaps s with
  | some caps => rfl
  | none =>
    dsimp only
    cases bmatchCaps s with
    | some caps => rfl
    | none =>
      dsimp only
      split
      · cases parseBandRobust s <;> rfl
      · rfl

theorem foldl_blockStep_hj (ls : List String) (st : BlockSt) :
    (ls.foldl blockStep st).hj = (lastJHeader ls).or st.hj := by
  induction ls generalizing st with
  | nil => simp [lastJHeader]
  | cons s ls ih =>
    rw [List.foldl_cons, ih, blockStep_hj]
    have hone : (List.findSome? (fun x => Option.map mkHJ (jmatchCaps x)) [s]) =
        (jmatchCaps s).map mkHJ := by
      cases h : jmatchCaps s <;> simp [List.findSome?_cons, h]
    have hsplit : lastJHeader (s :: ls) = (lastJHeader ls).or ((jmatchCaps s).map mkHJ) := by
      unfold lastJHeader
      rw [List.reverse_cons, List.findSome?_append, hone]
    rw [hsplit]
    cases hls : lastJHeader ls with
    | some v => simp [Option.or]
    | none =>
      cases hjm : jmatchCaps s with
      | some c => simp [Option.or]
      | none => simp [Option.or]

/-- C3 counterexample.  The claim asserts that with two header-shaped lines
in one block the position record comes from the FIRST matching line; here
both lines match `jheader_pat` (names `A` and `B`) and the assembled record
holds the name of the second line, because each match overwrites the
`header` dictionary. -/
theorem c3_counterexample :
    (parseCalBlock ["A J2000 P 1h +2d", "B J2000 P 3h +4d"]).j2000.IAU_NAME = "B" ∧
    (parseCalBlock ["A J2000 P 1h +2d", "B J2000 P 3h +4d"]).j2000.IAU_NAME ≠ "A" := by
  refine ⟨by decide, by decide⟩

/-- C3 (amended): for every calibrator block, the position record assembled
by `parse_cal_block` is taken from the LAST line (among the filtered,
sanitized lines) matching the J2000 header pattern — each later match
overwrites the earlier one — and is empty when no line matches (the frozen
claim instead said the first matching line is kept). -/
theorem c3_last_header_wins (bl : List String) :
    (parseCalBlock bl).j2000 = (lastJHeader (filteredLines bl)).getD emptyHJ := by
  unfold parseCalBlock
  dsimp only
  rw [foldl_blockStep_hj]
  cases lastJHeader (filteredLines bl) <;> simp [Option.or]

/-! ## C4 -/

theorem segGo_run (rest : List String) :
    ∀ buf, rest ≠ [] →
      (∀ l ∈ rest, pyContains l.data j2000Marker = false ∧
        (pyStripL l.data).isEmpty = false) →
      segGo rest true buf = [buf ++ rest] := by
  induction rest with
  | nil => intro buf h _; exact absurd rfl h
  | cons r rs ih =>
    intro buf _ hall
    obtain ⟨hr1, _⟩ := hall r (List.mem_cons_self r rs)
    rw [segGo, if_neg (by rw [hr1]; simp), if_pos rfl]
    cases rs with
    | nil => simp [atTerminator, segGo]
    | cons r2 rs2 =>
      obtain ⟨_, hr2s⟩ := hall r2 (List.mem_cons.mpr (Or.inr (List.mem_cons_self r2 rs2)))
      have hterm : ¬ (atTerminator (r2 :: rs2) = true) := by simp [atTerminator, hr2s]
      rw [if_neg hterm]
      rw [ih (buf ++ [r]) (by simp) fun l hl => hall l (List.mem_cons.mpr (Or.inr hl))]
      simp

/-- C4 counterexample.  The claim asserts that a block whose `J2000` marker
line is the very last line of the input is still yielded at end of input;
here the single marker line sets the in-block flag and `continue`s past the
end-of-input check, so no block is ever emitted. -/
theorem c4_counterexample :
    pyContains "zzz J2000".data j2000Marker = true ∧
    segGo ["zzz J2000"] false [] = [] := by
  refine ⟨by decide, by decide⟩

/-- C4 (amended): from any segmentation state, a line containing the
`J2000` marker followed by at least one more line — none of which contains
the marker or is blank — is yielded as one block when the end of input is
reached.  (The frozen claim extended this to a marker line that is the very
last line of the input, where the block is in fact lost, see the
counterexample.) -/
theorem c4_block_yielded_at_eof (inb : Bool) (buf : List String) (m : String)
    (rest : List String)
    (hm : pyContains m.data j2000Marker = true)
    (hne : rest ≠ [])
    (hall : ∀ l ∈ rest, pyContains l.data j2000Marker = false ∧
      (pyStripL l.data).isEmpty = false) :
    segGo (m :: rest) inb buf = [m :: rest] := by
  rw [segGo, if_pos (by rw [hm])]
  rw [segGo_run rest [m] hne hall]
  simp

/-- C4 witness: a marker line followed by one ordinary line is yielded as a
block at end of input. -/
theorem c4_witness : segGo ["a J2000", "b"] false [] = [["a J2000", "b"]] :=
  c4_block_yielded_at_eof false [] "a J2000" ["b"] (by decide) (by decide) (by decide)

/-! ## C6 -/

/-- C6 counterexample.  The claim asserts that a block yielding no usable
J2000 header contributes no calibrator element; here the only block has no
line matching the header pattern, yet the pipeline appends one calibrator
record with every header field empty. -/
theorem c6_counterexample :
    processGo ["zzz J2000", "w"] false [] =
      [{ j2000 := emptyHJ, b1950 := emptyHB, bands := [] }] ∧
    (processGo ["zzz J2000", "w"] false []).length ≠ 0 := by
  refine ⟨by decide, by decide⟩

/-- C6 (amended): no block is ever skipped: every block produced by the
segmentation loop contributes exactly one calibrator record, obtained by
`parse_cal_block` — including blocks with no usable J2000 header, which
contribute a record whose header fields are empty — and processing always
continues with the next block (the embedded parser raises no exception, so
the `except` path of the source is never taken). -/
theorem c6_every_block_contributes (ls : List String) :
    ∀ (inb : Bool) (buf : List String),
      processGo ls inb buf = (segGo ls inb buf).map parseCalBlock := by
  induction ls with
  | nil => intro inb buf; rfl
  | cons l rest ih =>
    intro inb buf
    rw [processGo, segGo]
    cases hj : pyContains l.data j2000Marker with
    | true =>
      simp only [eq_self_iff_true, if_true]
      exact ih true [l]
    | false =>
      cases inb with
      | false =>
        simp only [Bool.false_eq_true, if_false]
        exact ih false buf
      | true =>
        simp only [Bool.false_eq_true, if_false, eq_self_iff_true, if_true]
        cases hterm : atTerminator rest with
        | true =>
          simp only [eq_self_iff_true, if_true, List.map_cons]
          rw [ih false (buf ++ [l])]
        | false =>
          simp only [Bool.false_eq_true, if_false]
          exact ih true (buf ++ [l])

/-! ## C7 -/

theorem indentX_tag (lvl : Nat) (x : Xml) : (indentX lvl x).tag = x.tag := by
  cases x with
  | mk t text children tail =>
    cases children with
    | nil => simp only [indentX]; split <;> rfl
    | cons c cs => simp only [indentX]; rfl

theorem indentX_children (lvl : Nat) (x : Xml) :
    (indentX lvl x).children = x.children.map (indentX (lvl + 1)) := by
  cases x with
  | mk t text children tail =>
    cases children with
    | nil => simp only [indentX]; split <;> rfl
    | cons c cs =>
      simp only [indentX, Xml.children]
      exact List.attach_map_val (c :: cs) (indentX (lvl + 1))

theorem indentX_text_of_nil (lvl : Nat) (x : Xml) (h : x.children = []) :
    (indentX lvl x).text = x.text := by
  cases x with
  | mk t text children tail =>
    simp only [Xml.children] at h
    subst h
    simp only [indentX]
    split <;> rfl

theorem findChildren_indentX (lvl : Nat) (x : Xml) (t : String) :
    findChildren (indentX lvl x) t = (findChildren x t).map (indentX (lvl + 1)) := by
  unfold findChildren
  rw [indentX_children, List.filter_map]
  have hp : ((fun c : Xml => c.tag == t) ∘ indentX (lvl + 1)) =
      fun c : Xml => c.tag == t := by
    funext c
    simp [Function.comp, indentX_tag]
  rw [hp]

theorem findtextD_indentX (lvl : Nat) (x : Xml) (t : String)
    (h : ∀ c ∈ x.children, c.children = []) :
    findtextD (indentX lvl x) t = findtextD x t := by
  unfold findtextD findChild
  rw [indentX_children, List.find?_map]
  have hp : ((fun c : Xml => c.tag == t) ∘ indentX (lvl + 1)) =
      fun c : Xml => c.tag == t := by
    funext c
    simp [Function.comp, indentX_tag]
  rw [hp]
  cases hf : x.children.find? fun c : Xml => c.tag == t with
  | none => rfl
  | some c =>
    dsimp only [Option.map]
    rw [indentX_text_of_nil _ _ (h c (List.mem_of_find?_eq_some hf))]

theorem findPath2_indentX (lvl : Nat) (x : Xml) (a b : String) :
    findPath2 (indentX lvl x) a b = (findPath2 x a b).map (indentX (lvl + 1 + 1)) := by
  unfold findPath2
  rw [findChildren_indentX, List.map_map]
  have hcomp : ((fun h => findChildren h b) ∘ indentX (lvl + 1)) =
      fun h => (findChildren h b).map (indentX (lvl + 1 + 1)) := by
    funext h
    exact findChildren_indentX (lvl + 1) h b
  rw [hcomp]
  have hmm : ((findChildren x a).map fun h => (findChildren h b).map (indentX (lvl + 1 + 1))) =
      (((findChildren x a).map fun h => findChildren h b).map
        (List.map (indentX (lvl + 1 + 1)))) := by
    rw [List.map_map]
    rfl
  rw [hmm, ← List.map_flatten, List.head?_map]

theorem readBand_indentX (lvl : Nat) (b : BandRecord) :
    readBand (indentX lvl (bandToXml b)) = b := by
  have h : ∀ c ∈ (bandToXml b).children, c.children = [] := by
    intro c hc
    simp only [bandToXml, Xml.children, List.mem_cons, List.not_mem_nil, or_false] at hc
    rcases hc with h | h | h | h | h | h | h | h | h <;> (subst h; rfl)
  unfold readBand
  rw [findtextD_indentX lvl _ "BAND" h, findtextD_indentX lvl _ "BAND_CODE" h,
    findtextD_indentX lvl _ "A_CODE" h, findtextD_indentX lvl _ "B_CODE" h,
    findtextD_indentX lvl _ "C_CODE" h, findtextD_indentX lvl _ "D_CODE" h,
    findtextD_indentX lvl _ "FLUX_JY" h, findtextD_indentX lvl _ "UVMIN_KLAMBDA" h,
    findtextD_indentX lvl _ "UVMAX_KLAMBDA" h]
  rfl

theorem readCal_indentX (c : CalRecord) : readCal (indentX 1 (calToXml c)) = c := by
  have hleafj : ∀ x ∈ (Xml.mk "j2000" none
      (jTags.map fun t => leafEl t (c.j2000.get t)) none).children, x.children = [] := by
    intro x hx
    simp only [Xml.children] at hx
    obtain ⟨t, _, rfl⟩ := List.mem_map.mp hx
    rfl
  have hleafb : ∀ x ∈ (Xml.mk "b1950" none
      (bTags.map fun t => leafEl t (c.b1950.get t)) none).children, x.children = [] := by
    intro x hx
    simp only [Xml.children] at hx
    obtain ⟨t, _, rfl⟩ := List.mem_map.mp hx
    rfl
  have hpj : findPath2 (indentX 1 (calToXml c)) "header" "j2000" =
      some (indentX 3 (Xml.mk "j2000" none
        (jTags.map fun t => leafEl t (c.j2000.get t)) none)) := by
    rw [findPath2_indentX]
    rfl
  have hpb : findPath2 (indentX 1 (calToXml c)) "header" "b1950" =
      some (indentX 3 (Xml.mk "b1950" none
        (bTags.map fun t => leafEl t (c.b1950.get t)) none)) := by
    rw [findPath2_indentX]
    rfl
  have hband : findChildren (Xml.mk "bands" none (c.bands.map bandToXml) none) "band" =
      c.bands.map bandToXml := by
    unfold findChildren
    dsimp only [Xml.children]
    apply List.filter_eq_self.mpr
    intro a ha
    obtain ⟨b, _, rfl⟩ := List.mem_map.mp ha
    simp [bandToXml, Xml.tag]
  have hmapbands : ((c.bands.map bandToXml).map (indentX 3)).map readBand = c.bands := by
    rw [List.map_map, List.map_map]
    have hid : c.bands.map ((readBand ∘ indentX 3) ∘ bandToXml) = c.bands.map id :=
      List.map_congr_left fun b _ => readBand_indentX 3 b
    rw [hid, List.map_id]
  unfold readCal
  rw [hpj, hpb]
  dsimp only
  rw [findtextD_indentX 3 _ "IAU_NAME" hleafj, findtextD_indentX 3 _ "EQUINOX" hleafj,
    findtextD_indentX 3 _ "PC" hleafj, findtextD_indentX 3 _ "RA" hleafj,
    findtextD_indentX 3 _ "DEC" hleafj, findtextD_indentX 3 _ "POS_REF" hleafj,
    findtextD_indentX 3 _ "ALT_NAME" hleafj]
  rw [findtextD_indentX 3 _ "IAU_NAME" hleafb, findtextD_indentX 3 _ "EQUINOX" hleafb,
    findtextD_indentX 3 _ "PC" hleafb, findtextD_indentX 3 _ "RA" hleafb,
    findtextD_indentX 3 _ "DEC" hleafb]
  rw [findChildren_indentX]
  have hbs : findChildren (calToXml c) "bands" =
      [Xml.mk "bands" none (c.bands.map bandToXml) none] := rfl
  rw [hbs]
  simp only [List.map_cons, List.map_nil, List.flatten]
  rw [findChildren_indentX, hband, hmapbands, List.append_nil]
  exact rfl

/-- C7: serializing a calibrator collection to the persisted element tree
(the `calibrator`, `header`, `j2000`, `b1950`, `bands` and `band` elements
of `parse_cal_block` and `scrape_and_export_xml`, including the `indent`
whitespace pass) and re-reading that tree with the accessors of
`src/query.py` reproduces an equal ordered sequence of records: the same
field values, the same record and band order, and absent values (empty
strings) round-trip as absent. -/
theorem c7_roundtrip (cs : List CalRecord) : readCollection (collectionToXml cs) = cs := by
  unfold readCollection collectionToXml
  rw [findChildren_indentX]
  have h1 : findChildren (Xml.mk "calibrators" none (cs.map calToXml) none) "calibrator" =
      cs.map calToXml := by
    unfold findChildren
    dsimp only [Xml.children]
    apply List.filter_eq_self.mpr
    intro a ha
    obtain ⟨b, _, rfl⟩ := List.mem_map.mp ha
    simp [calToXml, Xml.tag]
  rw [h1, List.map_map, List.map_map]
  have hid : cs.map ((readCal ∘ indentX (0 + 1)) ∘ calToXml) = cs.map id :=
    List.map_congr_left fun b _ => readCal_indentX b
  rw [hid, List.map_id]

/-! ## C8 -/

theorem dropWhile_dropWhile (p : Char → Bool) (l : List Char) :
    (l.dropWhile p).dropWhile p = l.dropWhile p := by
  induction l with
  | nil => rfl
  | cons a l ih =>
    cases hp : p a with
    | true => simp [List.dropWhile_cons, hp, ih]
    | false => simp [List.dropWhile_cons, hp]

theorem dropWhile_eq_self_of_prefixOf {p : Char → Bool} {K L : List Char}
    (hL : L.dropWhile p = L) (hK : K <+: L) : K.dropWhile p = K := by
  cases L with
  | nil =>
    have hk : K = [] := List.prefix_nil.mp hK
    subst hk; rfl
  | cons a t =>
    cases hp : p a with
    | true =>
      exfalso
      have h1 : (a :: t).dropWhile p = t.dropWhile p := by simp [List.dropWhile_cons, hp]
      rw [h1] at hL
      have h2 : (t.dropWhile p).length ≤ t.length := (List.dropWhile_sublist p).length_le
      have h3 := congrArg List.length hL
      simp at h3
      omega
    | false =>
      cases K with
      | nil => rfl
      | cons b k =>
        have hb : b = a := (List.cons_prefix_cons.mp hK).1
        subst hb
        simp [List.dropWhile_cons, hp]

theorem pyStripL_idem (u : List Char) : pyStripL (pyStripL u) = pyStripL u := by
  have f1 : (rtrimWs u).reverse.dropWhile isPyWs = (rtrimWs u).reverse := by
    unfold rtrimWs
    rw [List.reverse_reverse]
    exact dropWhile_dropWhile _ _
  have hz : pyStripL u = (rtrimWs u).dropWhile isPyWs := rfl
  have hsuf : pyStripL u <:+ rtrimWs u := by
    rw [hz]; exact List.dropWhile_suffix _
  have hpre : (pyStripL u).reverse <+: (rtrimWs u).reverse := List.reverse_prefix.mpr hsuf
  have f2 : rtrimWs (pyStripL u) = pyStripL u := by
    unfold rtrimWs
    rw [dropWhile_eq_self_of_prefixOf f1 hpre, List.reverse_reverse]
  show ltrimWs (rtrimWs (pyStripL u)) = pyStripL u
  rw [f2, hz]
  exact dropWhile_dropWhile _ _

/-- C8 counterexample.  The claim asserts `clean_line` is idempotent on
every string.  On this input the first substitution's output reassembles a
new markdown-link pattern, which only the second run rewrites: one run
gives one string, two runs give another. -/
theorem c8_counterexample :
    cleanLine "[[u](v]w)](z)" = "[u](z)" ∧
    cleanLine (cleanLine "[[u](v]w)](z)") = "u" ∧
    cleanLine (cleanLine "[[u](v]w)](z)") ≠ cleanLine "[[u](v]w)](z)" := by
  refine ⟨by decide, by decide, by decide⟩

/-- C8 (amended): `clean_line` applied twice agrees with `clean_line`
applied once on every line whose sanitized form contains no further
occurrence of any of the three patterns (each substitution leaves
`clean_line s` unchanged); idempotence can fail when a substitution's
output contains a fresh markdown-link pattern, as in the counterexample. -/
theorem c8_idempotent_on_pattern_free (s : String)
    (h1 : subAll tryLink (cleanLine s).data = (cleanLine s).data)
    (h2 : subAll tryUrlParen (cleanLine s).data = (cleanLine s).data)
    (h3 : subAll tryHttp (cleanLine s).data = (cleanLine s).data) :
    cleanLine (cleanLine s) = cleanLine s := by
  have hd : (cleanLine s).data =
      pyStripL (subAll tryHttp (subAll tryUrlParen (subAll tryLink s.data))) := rfl
  show (⟨pyStripL (subAll tryHttp (subAll tryUrlParen
      (subAll tryLink (cleanLine s).data)))⟩ : String) = cleanLine s
  rw [h1, h2, h3, hd, pyStripL_idem, ← hd]

/-- C8 witness: the amended theorem applied to a line free of all three
patterns. -/
theorem c8_witness : cleanLine (cleanLine "hello") = cleanLine "hello" :=
  c8_idempotent_on_pattern_free "hello" (by decide) (by decide) (by decide)

/-! ## C9 -/

theorem findCalGo_eq_find? (nm : String) (l : List Xml) :
    findCalGo nm l = l.find? (calNameMatches nm) := by
  induction l with
  | nil => rfl
  | cons c cs ih =>
    cases hp : findPath2 c "header" "j2000" with
    | none =>
      have hm : calNameMatches nm c = false := by simp [calNameMatches, hp]
      simp [findCalGo, hp, List.find?_cons, hm, ih]
    | some j =>
      cases hs : stripStr (findtextD j "IAU_NAME") == nm with
      | true =>
        have hm : calNameMatches nm c = true := by simp [calNameMatches, hp, hs]
        simp [findCalGo, hp, hs, List.find?_cons, hm]
      | false =>
        have hm : calNameMatches nm c = false := by simp [calNameMatches, hp, hs]
        simp [findCalGo, hp, hs, List.find?_cons, hm, ih]

/-- C9: for every loaded collection and query name,
`find_calibrator_by_name` returns the first `calibrator` child (in
collection order) whose J2000 `IAU_NAME` matches the query — so when
several records share the name, the first match is reported — and returns
the not-found signal `none` exactly when no record matches. -/
theorem c9_first_match_lookup (root : Xml) (nm : String) :
    findCalByName (some root) nm =
      (findChildren root "calibrator").find? (calNameMatches nm) ∧
    (findCalByName (some root) nm = none ↔
      ∀ c ∈ findChildren root "calibrator", calNameMatches nm c = false) := by
  have h := findCalGo_eq_find? nm (findChildren root "calibrator")
  constructor
  · exact h
  · rw [show findCalByName (some root) nm =
      findCalGo nm (findChildren root "calibrator") from rfl, h]
    simp [List.find?_eq_none]

end VLA
